import Mathlib

/-!
Shallow embedding of the DFS lineup construction engine
(`lineup_optimizer.py`, class `LineupOptimizer`).

Conventions of the embedding:
* Python dicts for players become the `Player` structure; the mutable
  `'value'` key added by `build_value_lineup` is the `value : Option Rat`
  field, `none` until that strategy writes it.
* Python `sorted(..., key=k)` / `sorted(..., key=k, reverse=True)` is a
  stable sort and is modelled by `List.insertionSort` (also stable, so the
  two agree on every input) with the corresponding comparison; `reverse=True`
  is the flipped comparison, under which a stable sort is exactly what
  Python produces.
* The greedy selection loops (`for player in ...: if len(selected) < 6 and
  ...`) are the recursive `pickLoop`, carrying the running `selected` list
  and running total salary.  `build_balanced_lineup` tracks
  `remaining_salary = cap - total`, so its condition
  `player.salary <= remaining_salary` is `total + salary <= cap`, the same
  condition `pickLoop` uses, started from the already-selected picks.
* `create_lineup_object` returning `None` becomes `Option Lineup`.
* The in-place `player['value'] = ...` mutation of the pool performed by
  `build_value_lineup` is modelled explicitly: the pure lineup result is
  `buildValueLineup`, the pool state after the call is `poolAfterBuild`,
  and `genAux` (the loop of `generate_lineups`) threads that state.
-/

/-- `self.salary_cap` (50000). -/
def salaryCap : Int := 50000

/-- One candidate entry of the pool: a player dict from `load_player_pool`.
`value` models the `'value'` key that `build_value_lineup` writes in place
(`none` = key absent). -/
structure Player where
  name : String
  position : String
  salary : Int
  projection : Rat
  team : String
  ownership : Rat
  game : String
  value : Option Rat
deriving DecidableEq, Repr

/-- Build a pool entry as loaded (no `'value'` key yet). -/
def mkPlayer (name position : String) (salary : Int) (projection : Rat)
    (team : String) (ownership : Rat) (game : String) : Player :=
  ⟨name, position, salary, projection, team, ownership, game, none⟩

/-- The hardcoded pool of `load_player_pool` (the single `"guards"` list).
The first name carries an apostrophe in the source, elided here. -/
def playerPool : List Player :=
  [ mkPlayer "Aja Wilson" "F" 11800 (52.5 : Rat) "LVA" 35 "vs CONN"
  , mkPlayer "Breanna Stewart" "F" 10500 (45.8 : Rat) "NYL" 32 "vs MIN"
  , mkPlayer "Sabrina Ionescu" "G" 9200 (38.2 : Rat) "NYL" 28 "vs MIN"
  , mkPlayer "Napheesa Collier" "F" 8800 (41.3 : Rat) "MIN" 22 "at NYL"
  , mkPlayer "Kelsey Plum" "G" 7800 (32.8 : Rat) "LVA" 18 "vs CONN"
  , mkPlayer "Alyssa Thomas" "F" 7200 (35.4 : Rat) "CONN" 15 "at LVA"
  , mkPlayer "Paige Bueckers" "G" 7200 (35.7 : Rat) "DAL" 20 "vs WSH"
  , mkPlayer "DeWanna Bonner" "F" 6900 (32.1 : Rat) "CONN" 12 "at LVA"
  , mkPlayer "Jackie Young" "G" 6800 (29.5 : Rat) "LVA" 14 "vs CONN"
  , mkPlayer "Kayla McBride" "G" 5400 (26.8 : Rat) "MIN" 10 "at NYL"
  , mkPlayer "Courtney Williams" "G" 3900 (24.2 : Rat) "MIN" 8 "at NYL"
  , mkPlayer "Briann January" "G" 4200 (18.9 : Rat) "CONN" 6 "at LVA"
  ]

/-- `sum(p['salary'] for p in players)`. -/
def costSum (l : List Player) : Int := (l.map (fun p => p.salary)).sum

/-- `sum(p['projection'] for p in players)`. -/
def projSum (l : List Player) : Rat := (l.map (fun p => p.projection)).sum

/-- `sum(p['ownership'] for p in players)`. -/
def ownSum (l : List Player) : Rat := (l.map (fun p => p.ownership)).sum

/-- The output of a successful build: the dict made by
`create_lineup_object`, plus the `'strategy'` and `'number'` keys that
`generate_lineups` adds (empty/zero until then). -/
structure Lineup where
  players : List Player
  salary : Int
  projection : Rat
  ownership : Rat
  salaryRemaining : Int
  strategy : String
  number : Nat
deriving DecidableEq, Repr

/-- `create_lineup_object`: `None` unless exactly 6 players. -/
def createLineupObject (players : List Player) : Option Lineup :=
  if players.length ≠ 6 then none
  else
    some { players := players
         , salary := costSum players
         , projection := projSum players
         , ownership := ownSum players / (players.length : Rat)
         , salaryRemaining := salaryCap - costSum players
         , strategy := ""
         , number := 0 }

/-- The shared greedy loop:
`for p in l: if len(selected) < 6 and total + p.salary <= cap and extra p:
selected.append(p); total += p.salary`. -/
def pickLoop (extra : Player → Bool) : List Player → List Player → Int → List Player × Int
  | [], sel, tot => (sel, tot)
  | p :: rest, sel, tot =>
    if sel.length < 6 ∧ tot + p.salary ≤ salaryCap ∧ extra p = true then
      pickLoop extra rest (sel ++ [p]) (tot + p.salary)
    else
      pickLoop extra rest sel tot

/-- `sorted(players, key=lambda x: x['projection'], reverse=True)` (stable). -/
def sortProjDesc (l : List Player) : List Player :=
  l.insertionSort (fun a b => b.projection ≤ a.projection)

/-- `build_ceiling_lineup`. -/
def buildCeilingLineup (players : List Player) : Option Lineup :=
  createLineupObject (pickLoop (fun _ => true) (sortProjDesc players) [] 0).1

/-- `max(l, key=lambda x: x['projection'])` (first maximum wins), `none` on `[]`. -/
def maxByProj : List Player → Option Player
  | [] => none
  | x :: xs => some (xs.foldl (fun acc y => if acc.projection < y.projection then y else acc) x)

/-- The `projection/salary*1000` ranking key of `build_balanced_lineup`. -/
def ratioKey (p : Player) : Rat := p.projection / (p.salary : Rat) * 1000

/-- `sorted(mid_salary, key=lambda x: x['projection']/x['salary']*1000, reverse=True)`. -/
def sortRatioDesc (l : List Player) : List Player :=
  l.insertionSort (fun a b => ratioKey b ≤ ratioKey a)

/-- `build_balanced_lineup`: one top-projection high-salary pick, top 3
mid-salary by value ratio, then greedy fill from value plays by projection
(`remaining_salary = cap - total`, so the fill condition is the `pickLoop`
one). -/
def buildBalancedLineup (players : List Player) : Option Lineup :=
  let highSalary := players.filter (fun p => decide (9000 ≤ p.salary))
  let midSalary := players.filter (fun p => decide (6000 ≤ p.salary ∧ p.salary < 9000))
  let valuePlays := players.filter (fun p => decide (p.salary < 6000))
  let firstPick := match maxByProj highSalary with
    | some m => [m]
    | none => []
  let sel := firstPick ++ (sortRatioDesc midSalary).take 3
  createLineupObject (pickLoop (fun _ => true) (sortProjDesc valuePlays) sel (costSum sel)).1

/-- `sorted(players, key=lambda x: x['ownership'])` (stable, ascending). -/
def sortOwnAsc (l : List Player) : List Player :=
  l.insertionSort (fun a b => a.ownership ≤ b.ownership)

/-- `build_contrarian_lineup`: lowest ownership first, only entries with
`projection >= 20`. -/
def buildContrarianLineup (players : List Player) : Option Lineup :=
  createLineupObject
    (pickLoop (fun p => decide (20 ≤ p.projection)) (sortOwnAsc players) [] 0).1

/-- `build_game_stack_lineup`: top 3 by projection from the LVA/CONN game,
top 2 from NYL/MIN, then the first remaining player (by projection
descending) that fits the remaining salary. -/
def buildGameStackLineup (players : List Player) : Option Lineup :=
  let lvaConn := players.filter (fun p => decide (p.team = "LVA" ∨ p.team = "CONN"))
  let nylMin := players.filter (fun p => decide (p.team = "NYL" ∨ p.team = "MIN"))
  let sel5 := (sortProjDesc lvaConn).take 3 ++ (sortProjDesc nylMin).take 2
  let remainingSalary := salaryCap - costSum sel5
  let remainingPlayers := players.filter (fun p => decide (¬ p ∈ sel5))
  let sel6 := sel5 ++
    ((sortProjDesc remainingPlayers).find? (fun p => decide (p.salary ≤ remainingSalary))).toList
  createLineupObject sel6

/-- The in-place `player['value'] = projection / (salary / 1000)` write of
`build_value_lineup`, as a per-entry update. -/
def setValue (p : Player) : Player :=
  { p with value := some (p.projection / ((p.salary : Rat) / 1000)) }

/-- The `'value'` key read back by the Value sort (always present there). -/
def valueKey (p : Player) : Rat := p.value.getD 0

/-- `sorted(players, key=lambda x: x['value'], reverse=True)`. -/
def sortValueDesc (l : List Player) : List Player :=
  l.insertionSort (fun a b => valueKey b ≤ valueKey a)

/-- `build_value_lineup` (its pure result; the pool mutation it performs is
`poolAfterBuild`). -/
def buildValueLineup (players : List Player) : Option Lineup :=
  let withValue := players.map setValue
  createLineupObject (pickLoop (fun _ => true) (sortValueDesc withValue) [] 0).1

/-- `build_lineup_by_strategy`: string dispatch; unknown strategies fall
through to the balanced builder. -/
def buildLineupByStrategy (strategy : String) (players : List Player) : Option Lineup :=
  if strategy = "Ceiling" then buildCeilingLineup players
  else if strategy = "Balanced" then buildBalancedLineup players
  else if strategy = "Contrarian" then buildContrarianLineup players
  else if strategy = "Game Stack" then buildGameStackLineup players
  else if strategy = "Value" then buildValueLineup players
  else buildBalancedLineup players

/-- Pool state after one `build_lineup_by_strategy` call: only the Value
branch mutates the pool (it writes every entry's `'value'` key). -/
def poolAfterBuild (strategy : String) (players : List Player) : List Player :=
  if strategy = "Value" then players.map setValue else players

/-- Number of players at a position: `sum(1 for p in players if p['position'] == pos)`. -/
def countPosition (l : List Player) (pos : String) : Nat :=
  l.countP (fun p => decide (p.position = pos))

/-- `validate_lineup`, with the `if not lineup` guard as the `none` case;
checks in source order: salary cap, player count, position minimums. -/
def validateLineup : Option Lineup → Bool
  | none => false
  | some L =>
    if salaryCap < L.salary then false
    else if L.players.length ≠ 6 then false
    else if countPosition L.players "G" < 2 ∨ countPosition L.players "F" < 3 then false
    else true

/-- The strategy rotation of `generate_lineups`. -/
def strategiesList : List String := ["Ceiling", "Balanced", "Contrarian", "Game Stack", "Value"]

/-- The loop body of `generate_lineups`, threading the pool state
(`build_value_lineup` mutates it); `i` is the current iteration index, the
second argument the number of iterations left.  A lineup that builds and
validates is tagged with its strategy and `number = i + 1` and kept. -/
def genAux (pool : List Player) (i : Nat) : Nat → List Lineup
  | 0 => []
  | n + 1 =>
    let s := strategiesList.getD (i % 5) ""
    let tagged : List Lineup :=
      match buildLineupByStrategy s pool with
      | none => []
      | some L =>
        if validateLineup (some L) then [{ L with strategy := s, number := i + 1 }] else []
    tagged ++ genAux (poolAfterBuild s pool) (i + 1) n

/-- `generate_lineups` run on an explicit pool state (`self.player_pool`). -/
def generateLineupsPool (pool : List Player) (count : Nat) : List Lineup :=
  genAux pool 0 count

/-- `generate_lineups(count)` on the loaded pool. -/
def generateLineups (count : Nat) : List Lineup :=
  generateLineupsPool playerPool count

/-- Removing the `'value'` key again (to compare pools up to the one field
the Value strategy writes). -/
def eraseValue (p : Player) : Player :=
  { p with value := none }

/-- No choice of 6 distinct pool entries fits under the cap (the boundary
scenario: `t` ranges over sublists, i.e. subsets of entry positions). -/
def InfeasiblePool (pool : List Player) : Prop :=
  ∀ t ∈ pool.sublists, t.length = 6 → salaryCap < costSum t

/-- A pool on which no 6 entries fit under the cap (each entry costs
20000). -/
def expensivePool : List Player :=
  [ mkPlayer "e1" "G" 20000 (30 : Rat) "LVA" 10 "vs CONN"
  , mkPlayer "e2" "G" 20000 (29 : Rat) "LVA" 11 "vs CONN"
  , mkPlayer "e3" "F" 20000 (28 : Rat) "CONN" 12 "at LVA"
  , mkPlayer "e4" "F" 20000 (27 : Rat) "NYL" 13 "vs MIN"
  , mkPlayer "e5" "F" 20000 (26 : Rat) "MIN" 14 "at NYL"
  , mkPlayer "e6" "G" 20000 (25 : Rat) "MIN" 15 "at NYL"
  ]

/-- A 7-entry pool (already in projection order, all cheap): the ceiling
greedy fills the roster from the first six and then skips the seventh even
though it would fit the budget. -/
def cheapPool : List Player :=
  [ mkPlayer "q1" "G" 1000 (70 : Rat) "LVA" 10 "vs CONN"
  , mkPlayer "q2" "G" 1000 (60 : Rat) "LVA" 11 "vs CONN"
  , mkPlayer "q3" "F" 1000 (50 : Rat) "CONN" 12 "at LVA"
  , mkPlayer "q4" "F" 1000 (40 : Rat) "CONN" 13 "at LVA"
  , mkPlayer "q5" "F" 1000 (30 : Rat) "NYL" 14 "vs MIN"
  , mkPlayer "q6" "F" 1000 (20 : Rat) "NYL" 15 "vs MIN"
  , mkPlayer "q7" "G" 1000 (10 : Rat) "MIN" 16 "at NYL"
  ]

/-- The first six entries of `cheapPool` (the prefix scanned before `q7`). -/
def cheapPre : List Player := cheapPool.take 6

/-- The seventh entry of `cheapPool`, skipped with budget to spare. -/
def cheapSkipped : Player := mkPlayer "q7" "G" 1000 (10 : Rat) "MIN" 16 "at NYL"

/-- A pool on which every one of the five strategies builds a validating
lineup (cheap entries, both hardcoded game groups populated, enough guards
and forwards among every strategy's picks). -/
def richPool : List Player :=
  [ mkPlayer "p1" "G" 4000 (50 : Rat) "LVA" 10 "vs CONN"
  , mkPlayer "p2" "G" 4000 (48 : Rat) "LVA" 11 "vs CONN"
  , mkPlayer "p3" "F" 4000 (46 : Rat) "CONN" 12 "at LVA"
  , mkPlayer "p4" "F" 4000 (44 : Rat) "CONN" 13 "at LVA"
  , mkPlayer "p5" "F" 4000 (42 : Rat) "NYL" 14 "vs MIN"
  , mkPlayer "p6" "F" 4000 (40 : Rat) "NYL" 15 "vs MIN"
  , mkPlayer "p7" "G" 4000 (38 : Rat) "MIN" 16 "at NYL"
  , mkPlayer "p8" "F" 4000 (36 : Rat) "MIN" 17 "at NYL"
  , mkPlayer "p9" "G" 4000 (34 : Rat) "LVA" 18 "vs CONN"
  , mkPlayer "p10" "F" 4000 (32 : Rat) "CONN" 19 "at LVA"
  , mkPlayer "p11" "G" 4000 (30 : Rat) "NYL" 20 "vs MIN"
  , mkPlayer "p12" "G" 4000 (25 : Rat) "MIN" 21 "at NYL"
  ]

/-- The lineup `generate_lineups(4)` produces on the loaded pool in
iteration 2 (Balanced). -/
def refBalancedLineup : Lineup :=
  { players :=
      [ mkPlayer "Aja Wilson" "F" 11800 (52.5 : Rat) "LVA" 35 "vs CONN"
      , mkPlayer "Paige Bueckers" "G" 7200 (35.7 : Rat) "DAL" 20 "vs WSH"
      , mkPlayer "Alyssa Thomas" "F" 7200 (35.4 : Rat) "CONN" 15 "at LVA"
      , mkPlayer "Napheesa Collier" "F" 8800 (41.3 : Rat) "MIN" 22 "at NYL"
      , mkPlayer "Kayla McBride" "G" 5400 (26.8 : Rat) "MIN" 10 "at NYL"
      , mkPlayer "Courtney Williams" "G" 3900 (24.2 : Rat) "MIN" 8 "at NYL"
      ]
  , salary := 44300
  , projection := (2159 : Rat) / 10
  , ownership := (55 : Rat) / 3
  , salaryRemaining := 5700
  , strategy := "Balanced"
  , number := 2 }

/-- The (unvalidated: only two forwards) lineup the contrarian builder
produces on the loaded pool. -/
def refContrarianLineup : Lineup :=
  { players :=
      [ mkPlayer "Courtney Williams" "G" 3900 (24.2 : Rat) "MIN" 8 "at NYL"
      , mkPlayer "Kayla McBride" "G" 5400 (26.8 : Rat) "MIN" 10 "at NYL"
      , mkPlayer "DeWanna Bonner" "F" 6900 (32.1 : Rat) "CONN" 12 "at LVA"
      , mkPlayer "Jackie Young" "G" 6800 (29.5 : Rat) "LVA" 14 "vs CONN"
      , mkPlayer "Alyssa Thomas" "F" 7200 (35.4 : Rat) "CONN" 15 "at LVA"
      , mkPlayer "Kelsey Plum" "G" 7800 (32.8 : Rat) "LVA" 18 "vs CONN"
      ]
  , salary := 38000
  , projection := (904 : Rat) / 5
  , ownership := (77 : Rat) / 6
  , salaryRemaining := 12000
  , strategy := ""
  , number := 0 }

/-! ## Infrastructure lemmas -/

open List

/-- Splitting the scanned list splits the loop. -/
theorem pickLoop_append (e : Player → Bool) (l₁ l₂ sel : List Player) (tot : Int) :
    pickLoop e (l₁ ++ l₂) sel tot =
      pickLoop e l₂ (pickLoop e l₁ sel tot).1 (pickLoop e l₁ sel tot).2 := by
  induction l₁ generalizing sel tot with
  | nil => rfl
  | cons p rest ih =>
    simp only [List.cons_append, pickLoop]
    split
    · exact ih _ _
    · exact ih _ _

/-- The loop only appends, and what it appends is a sublist of the scanned list. -/
theorem pickLoop_sel_decomp (e : Player → Bool) (l sel : List Player) (tot : Int) :
    ∃ picked, (pickLoop e l sel tot).1 = sel ++ picked ∧ picked.Sublist l := by
  induction l generalizing sel tot with
  | nil => exact ⟨[], by simp [pickLoop], List.nil_sublist []⟩
  | cons p rest ih =>
    simp only [pickLoop]
    split
    · obtain ⟨picked, h1, h2⟩ := ih (sel ++ [p]) (tot + p.salary)
      exact ⟨p :: picked, by simpa [List.append_assoc] using h1, h2.cons₂ p⟩
    · obtain ⟨picked, h1, h2⟩ := ih sel tot
      exact ⟨picked, h1, h2.cons p⟩

/-- The running total tracks the summed salary of the selection. -/
theorem pickLoop_tot_eq (e : Player → Bool) (l sel : List Player) (tot : Int)
    (h : tot = costSum sel) :
    (pickLoop e l sel tot).2 = costSum (pickLoop e l sel tot).1 := by
  induction l generalizing sel tot with
  | nil => simpa [pickLoop] using h
  | cons p rest ih =>
    simp only [pickLoop]
    split
    · exact ih _ _ (by simp [costSum, h])
    · exact ih _ _ h

/-- A loop started under the cap stays under the cap. -/
theorem pickLoop_tot_le (e : Player → Bool) (l sel : List Player) (tot : Int)
    (h : tot ≤ salaryCap) :
    (pickLoop e l sel tot).2 ≤ salaryCap := by
  induction l generalizing sel tot with
  | nil => simpa [pickLoop] using h
  | cons p rest ih =>
    simp only [pickLoop]
    split_ifs with hc
    · exact ih _ _ hc.2.1
    · exact ih _ _ h

/-- If the loop accepted at least one player, the final total is under the
cap (every acceptance enforces it, whatever the starting total was). -/
theorem pickLoop_tot_le_of_ne (e : Player → Bool) (l sel : List Player) (tot : Int)
    (h : (pickLoop e l sel tot).1 ≠ sel) :
    (pickLoop e l sel tot).2 ≤ salaryCap := by
  induction l generalizing sel tot with
  | nil => simp [pickLoop] at h
  | cons p rest ih =>
    simp only [pickLoop] at h ⊢
    split_ifs at h ⊢ with hc
    · exact pickLoop_tot_le _ _ _ _ hc.2.1
    · exact ih _ _ h

/-- The selection never grows beyond 6. -/
theorem pickLoop_length_le (e : Player → Bool) (l sel : List Player) (tot : Int)
    (h : sel.length ≤ 6) :
    (pickLoop e l sel tot).1.length ≤ 6 := by
  induction l generalizing sel tot with
  | nil => simpa [pickLoop] using h
  | cons p rest ih =>
    simp only [pickLoop]
    split_ifs with hc
    · refine ih _ _ ?_
      have := hc.1
      simp only [List.length_append, List.length_cons, List.length_nil]
      omega
    · exact ih _ _ h

/-- Once the roster is full the loop changes nothing. -/
theorem pickLoop_of_full (e : Player → Bool) (l sel : List Player) (tot : Int)
    (h : 6 ≤ sel.length) :
    pickLoop e l sel tot = (sel, tot) := by
  induction l with
  | nil => rfl
  | cons p rest ih =>
    simp only [pickLoop]
    rw [if_neg fun hc => absurd hc.1 (by omega)]
    exact ih

/-- Every selected player was already selected or passed the extra test. -/
theorem pickLoop_extra_mem (e : Player → Bool) (l sel : List Player) (tot : Int) :
    ∀ x ∈ (pickLoop e l sel tot).1, x ∈ sel ∨ e x = true := by
  induction l generalizing sel tot with
  | nil => intro x hx; exact Or.inl (by simpa [pickLoop] using hx)
  | cons p rest ih =>
    simp only [pickLoop]
    split_ifs with hc
    · intro x hx
      rcases ih _ _ x hx with hmem | he
      · rcases List.mem_append.mp hmem with h1 | h2
        · exact Or.inl h1
        · have : x = p := by simpa using h2
          subst this
          exact Or.inr hc.2.2
      · exact Or.inr he
    · exact ih _ _

/-- The projection sort permutes the pool. -/
theorem sortProjDesc_perm (l : List Player) : (sortProjDesc l).Perm l :=
  List.perm_insertionSort _ l

/-- The ownership sort permutes the pool. -/
theorem sortOwnAsc_perm (l : List Player) : (sortOwnAsc l).Perm l :=
  List.perm_insertionSort _ l

/-- The ratio sort permutes the pool. -/
theorem sortRatioDesc_perm (l : List Player) : (sortRatioDesc l).Perm l :=
  List.perm_insertionSort _ l

/-- The value sort permutes the pool. -/
theorem sortValueDesc_perm (l : List Player) : (sortValueDesc l).Perm l :=
  List.perm_insertionSort _ l

/-- What a successful `create_lineup_object` call guarantees. -/
theorem createLineupObject_eq_some {ps : List Player} {L : Lineup}
    (h : createLineupObject ps = some L) :
    L.players = ps ∧ L.salary = costSum ps ∧ ps.length = 6 ∧
      L.strategy = "" ∧ L.number = 0 := by
  unfold createLineupObject at h
  split_ifs at h with h6
  have hL := Option.some_inj.mp h
  subst hL
  exact ⟨rfl, rfl, by omega, rfl, rfl⟩

/-- A sublist of a permutation of `l` is a subpermutation of `l`. -/
theorem subperm_of_sublist_perm {l₁ l₂ l₃ : List Player}
    (h : l₁.Sublist l₂) (hp : l₂.Perm l₃) : l₁.Subperm l₃ :=
  h.subperm.trans hp.subperm

/-- A successful ceiling build: its players are a budget-respecting
6-element subpermutation of the pool, drawn as a sublist of the
projection-sorted pool. -/
theorem buildCeilingLineup_props {players : List Player} {L : Lineup}
    (h : buildCeilingLineup players = some L) :
    L.players.Sublist (sortProjDesc players) ∧ L.players.Subperm players ∧
      L.players.length = 6 ∧ L.salary = costSum L.players ∧ L.salary ≤ salaryCap := by
  unfold buildCeilingLineup at h
  obtain ⟨hpl, hsal, hlen, -, -⟩ := createLineupObject_eq_some h
  obtain ⟨picked, h1, h2⟩ :=
    pickLoop_sel_decomp (fun _ => true) (sortProjDesc players) [] 0
  have hsub : L.players.Sublist (sortProjDesc players) := by
    rw [hpl, h1, List.nil_append]; exact h2
  have htot :=
    pickLoop_tot_eq (fun _ => true) (sortProjDesc players) [] 0 (by simp [costSum])
  have hle := pickLoop_tot_le (fun _ => true) (sortProjDesc players) [] 0 (by decide)
  refine ⟨hsub, subperm_of_sublist_perm hsub (sortProjDesc_perm players), by rw [hpl]; exact hlen,
    by rw [hpl]; exact hsal, ?_⟩
  rw [hsal, ← htot]
  exact hle

/-- A successful contrarian build: players are a sublist of the
ownership-sorted pool, a 6-element subpermutation under the cap, and every
selected player passed the `projection >= 20` floor. -/
theorem buildContrarianLineup_props {players : List Player} {L : Lineup}
    (h : buildContrarianLineup players = some L) :
    L.players.Sublist (sortOwnAsc players) ∧ L.players.Subperm players ∧
      L.players.length = 6 ∧ L.salary = costSum L.players ∧ L.salary ≤ salaryCap ∧
      ∀ p ∈ L.players, (20 : Rat) ≤ p.projection := by
  unfold buildContrarianLineup at h
  obtain ⟨hpl, hsal, hlen, -, -⟩ := createLineupObject_eq_some h
  obtain ⟨picked, h1, h2⟩ :=
    pickLoop_sel_decomp (fun p => decide (20 ≤ p.projection)) (sortOwnAsc players) [] 0
  have hsub : L.players.Sublist (sortOwnAsc players) := by
    rw [hpl, h1, List.nil_append]; exact h2
  have htot :=
    pickLoop_tot_eq (fun p => decide (20 ≤ p.projection)) (sortOwnAsc players) [] 0
      (by simp [costSum])
  have hle :=
    pickLoop_tot_le (fun p => decide (20 ≤ p.projection)) (sortOwnAsc players) [] 0 (by decide)
  refine ⟨hsub, subperm_of_sublist_perm hsub (sortOwnAsc_perm players), by rw [hpl]; exact hlen,
    by rw [hpl]; exact hsal, by rw [hsal, ← htot]; exact hle, ?_⟩
  intro p hp
  have := pickLoop_extra_mem (fun p => decide (20 ≤ p.projection)) (sortOwnAsc players) [] 0 p
    (by rw [hpl] at hp; exact hp)
  rcases this with hmem | he
  · cases hmem
  · exact of_decide_eq_true he

/-- A successful value build: players are a budget-respecting 6-element
subpermutation of the value-annotated pool. -/
theorem buildValueLineup_props {players : List Player} {L : Lineup}
    (h : buildValueLineup players = some L) :
    L.players.Subperm (players.map setValue) ∧
      L.players.length = 6 ∧ L.salary = costSum L.players ∧ L.salary ≤ salaryCap := by
  unfold buildValueLineup at h
  obtain ⟨hpl, hsal, hlen, -, -⟩ := createLineupObject_eq_some h
  obtain ⟨picked, h1, h2⟩ :=
    pickLoop_sel_decomp (fun _ => true) (sortValueDesc (players.map setValue)) [] 0
  have hsub : L.players.Sublist (sortValueDesc (players.map setValue)) := by
    rw [hpl, h1, List.nil_append]; exact h2
  have htot :=
    pickLoop_tot_eq (fun _ => true) (sortValueDesc (players.map setValue)) [] 0
      (by simp [costSum])
  have hle :=
    pickLoop_tot_le (fun _ => true) (sortValueDesc (players.map setValue)) [] 0 (by decide)
  refine ⟨subperm_of_sublist_perm hsub (sortValueDesc_perm _), by rw [hpl]; exact hlen,
    by rw [hpl]; exact hsal, ?_⟩
  rw [hsal, ← htot]
  exact hle

/-- Occurrence count inside a filter. -/
theorem count_filter_eq (p : Player → Bool) (l : List Player) (x : Player) :
    List.count x (l.filter p) = if p x = true then List.count x l else 0 := by
  split_ifs with hx
  · exact List.count_filter hx
  · exact List.count_eq_zero.mpr fun hmem => hx (List.mem_filter.mp hmem).2

/-- The three salary bands of the balanced builder are disjoint pieces of
the pool. -/
theorem count_bands_le (l : List Player) (x : Player) :
    List.count x (l.filter (fun p => decide (9000 ≤ p.salary))) +
      List.count x (l.filter (fun p => decide (6000 ≤ p.salary ∧ p.salary < 9000))) +
      List.count x (l.filter (fun p => decide (p.salary < 6000))) ≤ List.count x l := by
  rw [count_filter_eq, count_filter_eq, count_filter_eq]
  simp only [decide_eq_true_eq]
  split_ifs <;> omega

/-- The two team groups of the game-stack builder are disjoint pieces of
the pool. -/
theorem count_teams_le (l : List Player) (x : Player) :
    List.count x (l.filter (fun p => decide (p.team = "LVA" ∨ p.team = "CONN"))) +
      List.count x (l.filter (fun p => decide (p.team = "NYL" ∨ p.team = "MIN"))) ≤
      List.count x l := by
  rw [count_filter_eq, count_filter_eq]
  simp only [decide_eq_true_eq]
  split_ifs with h1 h2
  · exfalso
    rcases h1 with h | h <;> rw [h] at h2 <;> rcases h2 with h' | h' <;> simp at h'
  · omega
  · omega
  · omega

/-- `foldl` with a binary pick keeps an element of the scanned prefix. -/
theorem foldl_pick_mem (xs : List Player) (x : Player) :
    xs.foldl (fun acc y => if acc.projection < y.projection then y else acc) x ∈ x :: xs := by
  induction xs generalizing x with
  | nil => simp
  | cons y ys ih =>
    simp only [List.foldl_cons]
    rcases List.mem_cons.mp (ih (if x.projection < y.projection then y else x)) with h | h
    · rw [h]
      split_ifs <;> simp
    · exact List.mem_cons_of_mem _ (List.mem_cons_of_mem _ h)

/-- `max(..., key=projection)` returns an element of its argument. -/
theorem maxByProj_mem {l : List Player} {m : Player} (h : maxByProj l = some m) : m ∈ l := by
  cases l with
  | nil => cases h
  | cons x xs =>
    simp only [maxByProj, Option.some_inj] at h
    rw [← h]
    exact foldl_pick_mem xs x

/-- A successful balanced build: its players are a budget-respecting
6-element subpermutation of the pool (one high-band pick, up to three
mid-band picks, the rest greedy value-band fills). -/
theorem buildBalancedLineup_props {players : List Player} {L : Lineup}
    (h : buildBalancedLineup players = some L) :
    L.players.Subperm players ∧ L.players.length = 6 ∧
      L.salary = costSum L.players ∧ L.salary ≤ salaryCap := by
  unfold buildBalancedLineup at h
  simp only [] at h
  set highF := players.filter (fun p => decide (9000 ≤ p.salary)) with hHighF
  set midF := players.filter (fun p => decide (6000 ≤ p.salary ∧ p.salary < 9000)) with hMidF
  set valueF := players.filter (fun p => decide (p.salary < 6000)) with hValF
  set firstPick := (match maxByProj highF with
    | some m => [m]
    | none => []) with hFP
  set sel0 := firstPick ++ (sortRatioDesc midF).take 3 with hSel0
  obtain ⟨hpl, hsal, hlen, -, -⟩ := createLineupObject_eq_some h
  obtain ⟨picked, h1, h2⟩ :=
    pickLoop_sel_decomp (fun _ => true) (sortProjDesc valueF) sel0 (costSum sel0)
  have hlenFP : firstPick.length ≤ 1 := by
    rw [hFP]
    cases hm : maxByProj highF <;> simp
  have hsel0len : sel0.length ≤ 4 := by
    rw [hSel0]
    have ht : ((sortRatioDesc midF).take 3).length ≤ 3 := by
      simp [List.length_take]
    simp only [List.length_append]
    omega
  have hne : (pickLoop (fun _ => true) (sortProjDesc valueF) sel0 (costSum sel0)).1 ≠ sel0 := by
    intro heq
    rw [heq] at hlen
    omega
  have hcap :=
    pickLoop_tot_le_of_ne (fun _ => true) (sortProjDesc valueF) sel0 (costSum sel0) hne
  have htot :=
    pickLoop_tot_eq (fun _ => true) (sortProjDesc valueF) sel0 (costSum sel0) rfl
  refine ⟨?_, by rw [hpl]; exact hlen, by rw [hpl]; exact hsal,
    by rw [hsal, ← htot]; exact hcap⟩
  rw [hpl]
  refine List.subperm_ext_iff.mpr fun x _ => ?_
  have c1 : List.count x firstPick ≤ List.count x highF := by
    rw [hFP]
    cases hm : maxByProj highF with
    | none => simp
    | some m =>
      simp only []
      by_cases hxm : x = m
      · subst hxm
        have hmem : x ∈ highF := maxByProj_mem hm
        have hpos := List.count_pos_iff.mpr hmem
        have hone : List.count x [x] = 1 := by simp
        omega
      · have : List.count x [m] = 0 := List.count_eq_zero.mpr (by simp [hxm])
        omega
  have c2 : List.count x ((sortRatioDesc midF).take 3) ≤ List.count x midF :=
    le_trans ((List.take_sublist 3 _).count_le x) (le_of_eq ((sortRatioDesc_perm midF).count_eq x))
  have c3 : List.count x picked ≤ List.count x valueF :=
    le_trans (h2.count_le x) (le_of_eq ((sortProjDesc_perm valueF).count_eq x))
  have hbands := count_bands_le players x
  rw [← hHighF, ← hMidF, ← hValF] at hbands
  rw [h1, hSel0, List.count_append, List.count_append]
  omega

/-- A successful game-stack build: its players are a budget-respecting
6-element subpermutation of the pool (three from one game group, two from
the other, one fitting filler). -/
theorem buildGameStackLineup_props {players : List Player} {L : Lineup}
    (h : buildGameStackLineup players = some L) :
    L.players.Subperm players ∧ L.players.length = 6 ∧
      L.salary = costSum L.players ∧ L.salary ≤ salaryCap := by
  unfold buildGameStackLineup at h
  simp only [] at h
  set lvaConn := players.filter (fun p => decide (p.team = "LVA" ∨ p.team = "CONN")) with hLC
  set nylMin := players.filter (fun p => decide (p.team = "NYL" ∨ p.team = "MIN")) with hNM
  set sel5 := (sortProjDesc lvaConn).take 3 ++ (sortProjDesc nylMin).take 2 with hSel5
  set remainingPlayers := players.filter (fun p => decide (¬ p ∈ sel5)) with hRem
  obtain ⟨hpl, hsal, hlen, -, -⟩ := createLineupObject_eq_some h
  have hlen5 : sel5.length ≤ 5 := by
    rw [hSel5]
    have t1 : ((sortProjDesc lvaConn).take 3).length ≤ 3 := by simp [List.length_take]
    have t2 : ((sortProjDesc nylMin).take 2).length ≤ 2 := by simp [List.length_take]
    simp only [List.length_append]
    omega
  cases hf : (sortProjDesc remainingPlayers).find?
      (fun p => decide (p.salary ≤ salaryCap - costSum sel5)) with
  | none =>
    rw [hf] at hlen
    simp only [Option.toList_none, List.append_nil] at hlen
    omega
  | some r =>
    rw [hf] at hpl hsal hlen
    simp only [Option.toList_some] at hpl hsal hlen
    have hrP : r.salary ≤ salaryCap - costSum sel5 := by
      have h' := List.find?_some hf
      simpa using h'
    have hrMem' : r ∈ remainingPlayers :=
      ((sortProjDesc_perm _).mem_iff).mp (List.mem_of_find?_eq_some hf)
    rw [hRem] at hrMem'
    obtain ⟨hrPool, hrNot⟩ := List.mem_filter.mp hrMem'
    have hrNot' : r ∉ sel5 := of_decide_eq_true hrNot
    have hcost : costSum (sel5 ++ [r]) = costSum sel5 + r.salary := by
      simp [costSum]
    have hle : costSum (sel5 ++ [r]) ≤ salaryCap := by omega
    refine ⟨?_, by rw [hpl]; exact hlen, by rw [hpl]; exact hsal,
      by rw [hsal]; exact hle⟩
    rw [hpl]
    refine List.subperm_ext_iff.mpr fun x _ => ?_
    have c1 : List.count x ((sortProjDesc lvaConn).take 3) ≤ List.count x lvaConn :=
      le_trans ((List.take_sublist 3 _).count_le x)
        (le_of_eq ((sortProjDesc_perm lvaConn).count_eq x))
    have c2 : List.count x ((sortProjDesc nylMin).take 2) ≤ List.count x nylMin :=
      le_trans ((List.take_sublist 2 _).count_le x)
        (le_of_eq ((sortProjDesc_perm nylMin).count_eq x))
    have hteams := count_teams_le players x
    rw [← hLC, ← hNM] at hteams
    rw [List.count_append, hSel5, List.count_append]
    by_cases hxr : x = r
    · subst hxr
      have hzero : List.count x sel5 = 0 := List.count_eq_zero.mpr hrNot'
      rw [hSel5, List.count_append] at hzero
      have hone : List.count x [x] = 1 := by simp
      have hpos := List.count_pos_iff.mpr hrPool
      omega
    · have hz : List.count x [r] = 0 := List.count_eq_zero.mpr (by simp [hxr])
      omega

/-- Whatever the strategy string, a successful dispatch produces a
budget-respecting 6-element subpermutation of the pool (of its
value-annotated copy, for the Value branch). -/
theorem buildLineupByStrategy_props {s : String} {players : List Player} {L : Lineup}
    (h : buildLineupByStrategy s players = some L) :
    (L.players.Subperm players ∨ L.players.Subperm (players.map setValue)) ∧
      L.players.length = 6 ∧ L.salary = costSum L.players ∧ L.salary ≤ salaryCap := by
  unfold buildLineupByStrategy at h
  split_ifs at h
  · obtain ⟨-, hsp, h6, hs, hc⟩ := buildCeilingLineup_props h
    exact ⟨Or.inl hsp, h6, hs, hc⟩
  · obtain ⟨hsp, h6, hs, hc⟩ := buildBalancedLineup_props h
    exact ⟨Or.inl hsp, h6, hs, hc⟩
  · obtain ⟨-, hsp, h6, hs, hc, -⟩ := buildContrarianLineup_props h
    exact ⟨Or.inl hsp, h6, hs, hc⟩
  · obtain ⟨hsp, h6, hs, hc⟩ := buildGameStackLineup_props h
    exact ⟨Or.inl hsp, h6, hs, hc⟩
  · obtain ⟨hsp, h6, hs, hc⟩ := buildValueLineup_props h
    exact ⟨Or.inr hsp, h6, hs, hc⟩
  · obtain ⟨hsp, h6, hs, hc⟩ := buildBalancedLineup_props h
    exact ⟨Or.inl hsp, h6, hs, hc⟩

/-- Subpermutations are preserved by mapping. -/
theorem subperm_map {α β : Type} (f : α → β) {l₁ l₂ : List α} (h : l₁.Subperm l₂) :
    (l₁.map f).Subperm (l₂.map f) := by
  obtain ⟨t, hperm, hsub⟩ := h
  exact ⟨t.map f, hperm.map f, hsub.map f⟩

/-- A subpermutation of a duplicate-free list is duplicate-free. -/
theorem subperm_nodup {α : Type} {l₁ l₂ : List α} (h : l₁.Subperm l₂) (hn : l₂.Nodup) :
    l₁.Nodup := by
  obtain ⟨t, hperm, hsub⟩ := h
  exact hperm.nodup_iff.mp (hsub.nodup hn)

/-- Writing the `'value'` key changes no name. -/
theorem map_name_map_setValue (l : List Player) :
    (l.map setValue).map Player.name = l.map Player.name := by
  simp [List.map_map, Function.comp_def, setValue]

/-- Writing the `'value'` key changes no salary. -/
theorem costSum_map_setValue (l : List Player) : costSum (l.map setValue) = costSum l := by
  simp [costSum, List.map_map, Function.comp_def, setValue]

/-- Summed salary is invariant under permutation. -/
theorem costSum_perm {l₁ l₂ : List Player} (h : l₁.Perm l₂) : costSum l₁ = costSum l₂ := by
  unfold costSum
  exact (h.map (fun p => p.salary)).sum_eq

/-- Identifier multiset of a successful build is drawn from the pool's. -/
theorem buildLineupByStrategy_names {s : String} {players : List Player} {L : Lineup}
    (h : buildLineupByStrategy s players = some L) :
    (L.players.map Player.name).Subperm (players.map Player.name) := by
  rcases (buildLineupByStrategy_props h).1 with hsp | hsp
  · exact subperm_map _ hsp
  · have := subperm_map Player.name hsp
    rwa [map_name_map_setValue] at this

/-- On an infeasible pool every strategy's build fails. -/
theorem build_none_of_infeasible {s : String} {pool : List Player}
    (hinf : InfeasiblePool pool) :
    buildLineupByStrategy s pool = none := by
  cases hb : buildLineupByStrategy s pool with
  | none => rfl
  | some L =>
    exfalso
    obtain ⟨hsp, h6, hs, hc⟩ := buildLineupByStrategy_props hb
    rcases hsp with hsp | hsp
    · obtain ⟨t, hperm, hsub⟩ := hsp
      have hbig := hinf t (List.mem_sublists.mpr hsub) (by rw [hperm.length_eq]; exact h6)
      rw [costSum_perm hperm, ← hs] at hbig
      omega
    · obtain ⟨t, hperm, hsub⟩ := hsp
      obtain ⟨t₀, hsub₀, rfl⟩ := List.sublist_map_iff.mp hsub
      have hlen₀ : t₀.length = 6 := by
        have h1 := hperm.length_eq
        rw [List.length_map] at h1
        omega
      have hbig := hinf t₀ (List.mem_sublists.mpr hsub₀) hlen₀
      rw [← costSum_map_setValue t₀, costSum_perm hperm, ← hs] at hbig
      omega

/-- Infeasibility survives the Value strategy's pool mutation. -/
theorem infeasible_poolAfterBuild {s : String} {pool : List Player}
    (hinf : InfeasiblePool pool) :
    InfeasiblePool (poolAfterBuild s pool) := by
  unfold poolAfterBuild
  split_ifs
  · intro t ht hlen
    obtain ⟨t₀, hsub₀, rfl⟩ := List.sublist_map_iff.mp (List.mem_sublists.mp ht)
    rw [costSum_map_setValue]
    exact hinf t₀ (List.mem_sublists.mpr hsub₀) (by simpa using hlen)
  · exact hinf

/-- Exact characterization of `validate_lineup`: true precisely on a
non-null lineup with 6 players, salary under the cap, at least 2 guards
and at least 3 forwards. -/
theorem validateLineup_iff (ol : Option Lineup) :
    validateLineup ol = true ↔
      ∃ L, ol = some L ∧ L.players.length = 6 ∧ L.salary ≤ salaryCap ∧
        2 ≤ countPosition L.players "G" ∧ 3 ≤ countPosition L.players "F" := by
  cases ol with
  | none => simp [validateLineup]
  | some L =>
    simp only [validateLineup]
    constructor
    · intro h
      split_ifs at h with h1 h2 h3
      push_neg at h3
      exact ⟨L, rfl, by omega, by omega, by omega, by omega⟩
    · rintro ⟨L', hL', h6, hcap, hG, hF⟩
      have : L' = L := by injection hL' with h'; exact h'.symm
      subst this
      rw [if_neg (by omega), if_neg (by omega), if_neg (by omega)]

/-- Tagging a lineup with its strategy and sequence number does not change
what the validator sees. -/
theorem validateLineup_tag (L : Lineup) (s : String) (n : Nat) :
    validateLineup (some { L with strategy := s, number := n }) = validateLineup (some L) := rfl

/-- Every lineup the batch loop keeps validates, and (when the pool has
distinct identifiers) carries distinct identifiers. -/
theorem genAux_mem_props {pool : List Player} {i n : Nat} {L : Lineup}
    (hnodup : (pool.map Player.name).Nodup) (hL : L ∈ genAux pool i n) :
    validateLineup (some L) = true ∧ (L.players.map Player.name).Nodup := by
  induction n generalizing pool i with
  | zero => cases hL
  | succ n ih =>
    simp only [genAux] at hL
    rcases List.mem_append.mp hL with h1 | h2
    · revert h1
      cases hb : buildLineupByStrategy (strategiesList.getD (i % 5) "") pool with
      | none => intro h1; cases h1
      | some L₀ =>
        intro h1
        simp only [] at h1
        by_cases hv : validateLineup (some L₀) = true
        · rw [if_pos hv] at h1
          have hLtag : L = { L₀ with strategy := strategiesList.getD (i % 5) "", number := i + 1 } := by
            simpa using h1
          subst hLtag
          have hnn := subperm_nodup (buildLineupByStrategy_names hb) hnodup
          exact ⟨hv, hnn⟩
        · rw [if_neg hv] at h1
          cases h1
    · have hnames : (poolAfterBuild (strategiesList.getD (i % 5) "") pool).map Player.name
          = pool.map Player.name := by
        unfold poolAfterBuild
        split_ifs
        · exact map_name_map_setValue pool
        · rfl
      exact ih (by rw [hnames]; exact hnodup) h2

/-- On an infeasible pool the batch loop keeps nothing. -/
theorem genAux_infeasible {pool : List Player} (hinf : InfeasiblePool pool) (i n : Nat) :
    genAux pool i n = [] := by
  induction n generalizing pool i with
  | zero => rfl
  | succ n ih =>
    simp only [genAux]
    rw [build_none_of_infeasible hinf]
    show genAux (poolAfterBuild (strategiesList.getD (i % 5) "") pool) (i + 1) n = []
    exact ih (infeasible_poolAfterBuild hinf) (i + 1)

/-- Erasing after writing the `'value'` key is erasing. -/
theorem eraseValue_setValue (p : Player) : eraseValue (setValue p) = eraseValue p := rfl

/-- Writing the `'value'` key twice is writing it once. -/
theorem setValue_setValue (p : Player) : setValue (setValue p) = setValue p := rfl

/-- Re-annotating an annotated pool changes nothing. -/
theorem map_setValue_idem (l : List Player) :
    (l.map setValue).map setValue = l.map setValue := by
  simp [List.map_map, Function.comp_def, setValue_setValue]

/-! ## Claims -/

/-- C1: every lineup in the sequence returned by the batch generator
(`generate_lineups`, run on a pool satisfying the data-model invariants:
distinct identifiers, positive costs) has exactly 6 entries, all entry
identifiers distinct, total cost at most 50000, at least 2 Guard-role
entries and at least 3 Forward-role entries. -/
theorem claim_C1_generated_lineup_invariants
    (pool : List Player) (count : Nat) (L : Lineup)
    (hnodup : (pool.map Player.name).Nodup)
    (_hpos : ∀ p ∈ pool, 0 < p.salary)
    (hL : L ∈ generateLineupsPool pool count) :
    L.players.length = 6 ∧ (L.players.map Player.name).Nodup ∧
      L.salary ≤ salaryCap ∧
      2 ≤ countPosition L.players "G" ∧ 3 ≤ countPosition L.players "F" := by
  obtain ⟨hv, hnn⟩ := genAux_mem_props hnodup hL
  obtain ⟨L', hL', h6, hcap, hG, hF⟩ := (validateLineup_iff (some L)).mp hv
  have hLL : L' = L := by injection hL' with h'; exact h'.symm
  subst hLL
  exact ⟨h6, hnn, hcap, hG, hF⟩

/-- C1 witness: the Balanced lineup kept by `generate_lineups(4)` on the
loaded pool satisfies all the invariants. -/
theorem claim_C1_witness :
    refBalancedLineup.players.length = 6 ∧
      (refBalancedLineup.players.map Player.name).Nodup ∧
      refBalancedLineup.salary ≤ salaryCap ∧
      2 ≤ countPosition refBalancedLineup.players "G" ∧
      3 ≤ countPosition refBalancedLineup.players "F" :=
  claim_C1_generated_lineup_invariants playerPool 4 refBalancedLineup
    (by decide!) (by decide!) (by decide!)

/-- C2 counterexample: on the loaded reference pool, `generate_lineups(4)`
does not yield 4 lineups (the Ceiling build already fails: only 5 players
fit under the cap greedily). -/
theorem claim_C2_counterexample :
    (generateLineups 4).length ≠ 4 ∧ buildLineupByStrategy "Ceiling" playerPool = none :=
  ⟨by decide!, by decide!⟩

/-- C2 amended: on the reference pool, `generate_lineups(4)` yields exactly
2 validated lineups — Balanced (number 2, salary 44300, projection 215.9)
and Game Stack (number 4, salary 50000, projection 232.0) — each within the
cap; the Ceiling build fails, so no Ceiling lineup exists to dominate; the
Contrarian build produces a lineup with only two forwards, which the
validator rejects. -/
theorem claim_C2_amended :
    (generateLineups 4).map (fun L => (L.strategy, L.number, L.salary, L.projection)) =
      [("Balanced", 2, 44300, (2159 : Rat) / 10), ("Game Stack", 4, 50000, (232 : Rat))] ∧
      buildCeilingLineup playerPool = none ∧
      validateLineup (buildContrarianLineup playerPool) = false ∧
      (∀ L ∈ generateLineups 4, L.salary ≤ salaryCap) :=
  ⟨by decide!, by decide!, by decide!, by decide!⟩

/-- C3 counterexample: the Value build call does mutate the pool — it
writes the derived `'value'` key into every entry in place. -/
theorem claim_C3_counterexample :
    poolAfterBuild "Value" playerPool ≠ playerPool := by decide!

/-- C3 amended: builds for every strategy other than Value leave the pool
unchanged; the Value build changes each entry only in its derived
`valueScore` field (erasing that field recovers the original pool), and the
mutation is invisible to a repeated Value call: rebuilding on the mutated
pool returns the same lineup and the same pool. -/
theorem claim_C3_amended (pool : List Player) (s : String) (hs : s ≠ "Value") :
    poolAfterBuild s pool = pool ∧
      (poolAfterBuild "Value" pool).map eraseValue = pool.map eraseValue ∧
      buildValueLineup (poolAfterBuild "Value" pool) = buildValueLineup pool ∧
      poolAfterBuild "Value" (poolAfterBuild "Value" pool) = poolAfterBuild "Value" pool := by
  have hval : poolAfterBuild "Value" pool = pool.map setValue := by
    unfold poolAfterBuild
    rw [if_pos rfl]
  refine ⟨?_, ?_, ?_, ?_⟩
  · unfold poolAfterBuild
    rw [if_neg hs]
  · rw [hval]
    simp [List.map_map, Function.comp_def, eraseValue_setValue]
  · rw [hval]
    unfold buildValueLineup
    rw [map_setValue_idem]
  · rw [hval]
    unfold poolAfterBuild
    rw [if_pos rfl]
    exact map_setValue_idem pool

/-- C3 witness: instantiated at the Ceiling strategy on the loaded pool. -/
theorem claim_C3_witness :
    ("Ceiling" : String) ≠ "Value" ∧ poolAfterBuild "Ceiling" playerPool = playerPool :=
  ⟨by decide!, (claim_C3_amended playerPool "Ceiling" (by decide!)).1⟩

/-- C4 counterexample: with an empty pool no error is raised anywhere —
every build returns an ordinary failure (`none`) and the batch generator
returns the empty sequence silently.  No `EmptyPoolError` exists in the
code. -/
theorem claim_C4_counterexample :
    generateLineupsPool [] 5 = [] ∧ buildLineupByStrategy "Ceiling" [] = none := by
  constructor
  · decide!
  · decide!

/-- C4 amended: on an empty pool, every strategy's build returns a build
failure (`None`) and `generate_lineups` returns an empty sequence, for
every requested count; no exception is raised (the code defines no
`EmptyPoolError`). -/
theorem claim_C4_amended (s : String) (count : Nat) :
    buildLineupByStrategy s [] = none ∧ generateLineupsPool [] count = [] := by
  have hb : ∀ s' : String, buildLineupByStrategy s' [] = none := by
    intro s'
    unfold buildLineupByStrategy
    split_ifs <;> rfl
  have hp : ∀ s' : String, poolAfterBuild s' [] = ([] : List Player) := by
    intro s'
    unfold poolAfterBuild
    split_ifs <;> rfl
  refine ⟨hb s, ?_⟩
  have hgen : ∀ n i, genAux [] i n = [] := by
    intro n
    induction n with
    | zero => intro i; rfl
    | succ n ih =>
      intro i
      simp only [genAux, hb, hp, List.nil_append]
      exact ih (i + 1)
  exact hgen count 0

/-- C5: on any positive-cost pool in which no 6 entries fit under the cap,
every strategy's build fails and the batch generator returns an empty
sequence without error, for any requested count. -/
theorem claim_C5_infeasible_pool (pool : List Player)
    (_hpos : ∀ p ∈ pool, 0 < p.salary) (hinf : InfeasiblePool pool) :
    (∀ s : String, buildLineupByStrategy s pool = none) ∧
      (∀ count : Nat, generateLineupsPool pool count = []) :=
  ⟨fun _ => build_none_of_infeasible hinf, fun count => genAux_infeasible hinf 0 count⟩

/-- C5 witness: a pool of six 20000-cost entries. -/
theorem claim_C5_witness :
    (∀ p ∈ expensivePool, 0 < p.salary) ∧ InfeasiblePool expensivePool ∧
      buildLineupByStrategy "Game Stack" expensivePool = none ∧
      generateLineupsPool expensivePool 7 = [] := by
  have h1 : ∀ p ∈ expensivePool, 0 < p.salary := by decide!
  have h2 : InfeasiblePool expensivePool := by
    unfold InfeasiblePool
    decide!
  exact ⟨h1, h2, (claim_C5_infeasible_pool expensivePool h1 h2).1 "Game Stack",
    (claim_C5_infeasible_pool expensivePool h1 h2).2 7⟩

/-- C6: the ceiling strategy scans the pool sorted by projection
descending, greedily adding entries that fit the budget until 6 are
selected; consequently, whenever an entry `b` is reached with budget to
spare but skipped (the roster is already full), every selected entry has
projection at least `b`'s. -/
theorem claim_C6_ceiling_greedy (players pre post : List Player) (b : Player)
    (hsplit : sortProjDesc players = pre ++ b :: post)
    (hfit : (pickLoop (fun _ => true) pre [] 0).2 + b.salary ≤ salaryCap)
    (hskip : b ∉ (pickLoop (fun _ => true) (sortProjDesc players) [] 0).1) :
    ∃ L, buildCeilingLineup players = some L ∧
      L.players = (pickLoop (fun _ => true) pre [] 0).1 ∧
      ∀ a ∈ L.players, b.projection ≤ a.projection := by
  by_cases hlt : (pickLoop (fun _ => true) pre [] 0).1.length < 6
  · exfalso
    apply hskip
    rw [hsplit, pickLoop_append]
    simp only [pickLoop]
    rw [if_pos ⟨hlt, hfit, by trivial⟩]
    obtain ⟨picked, h1, -⟩ := pickLoop_sel_decomp (fun _ => true) post
      ((pickLoop (fun _ => true) pre [] 0).1 ++ [b])
      ((pickLoop (fun _ => true) pre [] 0).2 + b.salary)
    rw [h1]
    simp
  · push_neg at hlt
    have hle6 := pickLoop_length_le (fun _ => true) pre [] 0 (by simp)
    have h6 : (pickLoop (fun _ => true) pre [] 0).1.length = 6 := le_antisymm hle6 hlt
    have hfull : pickLoop (fun _ => true) (sortProjDesc players) [] 0
        = pickLoop (fun _ => true) pre [] 0 := by
      rw [hsplit, pickLoop_append]
      exact pickLoop_of_full _ _ _ _ (by omega)
    unfold buildCeilingLineup
    rw [hfull]
    unfold createLineupObject
    rw [if_neg (by omega)]
    refine ⟨_, rfl, rfl, ?_⟩
    intro a ha
    obtain ⟨picked, h1, h2⟩ := pickLoop_sel_decomp (fun _ => true) pre [] 0
    rw [h1, List.nil_append] at ha
    have haPre : a ∈ pre := h2.subset ha
    have hsorted : List.Pairwise (fun a b : Player => b.projection ≤ a.projection)
        (sortProjDesc players) := by
      haveI : IsTotal Player (fun a b : Player => b.projection ≤ a.projection) :=
        ⟨fun a b => le_total b.projection a.projection⟩
      haveI : IsTrans Player (fun a b : Player => b.projection ≤ a.projection) :=
        ⟨fun a b c hab hbc => le_trans hbc hab⟩
      exact List.sorted_insertionSort _ players
    rw [hsplit] at hsorted
    exact (List.pairwise_append.mp hsorted).2.2 a haPre b (List.mem_cons_self b post)

/-- C6 witness: on the seven-entry cheap pool, `q7` fits the remaining
budget but is skipped because the roster is full, and every selected entry
has at least its projection. -/
theorem claim_C6_witness :
    sortProjDesc cheapPool = cheapPre ++ cheapSkipped :: [] ∧
      (pickLoop (fun _ => true) cheapPre [] 0).2 + cheapSkipped.salary ≤ salaryCap ∧
      cheapSkipped ∉ (pickLoop (fun _ => true) (sortProjDesc cheapPool) [] 0).1 ∧
      ∃ L, buildCeilingLineup cheapPool = some L ∧
        L.players = (pickLoop (fun _ => true) cheapPre [] 0).1 ∧
        ∀ a ∈ L.players, cheapSkipped.projection ≤ a.projection := by
  have h1 : sortProjDesc cheapPool = cheapPre ++ cheapSkipped :: [] := by decide!
  have h2 : (pickLoop (fun _ => true) cheapPre [] 0).2 + cheapSkipped.salary ≤ salaryCap := by
    decide!
  have h3 : cheapSkipped ∉ (pickLoop (fun _ => true) (sortProjDesc cheapPool) [] 0).1 := by
    decide!
  exact ⟨h1, h2, h3, claim_C6_ceiling_greedy cheapPool cheapPre [] cheapSkipped h1 h2 h3⟩

/-- C7: the contrarian strategy scans the pool sorted by ownership
ascending (a stable sort), so its selection is a sublist of that order,
and every entry it selects has projection at least 20. -/
theorem claim_C7_contrarian_floor (players : List Player) (L : Lineup)
    (h : buildContrarianLineup players = some L) :
    L.players.Sublist (sortOwnAsc players) ∧
      ∀ p ∈ L.players, (20 : Rat) ≤ p.projection := by
  obtain ⟨hsub, -, -, -, -, hproj⟩ := buildContrarianLineup_props h
  exact ⟨hsub, hproj⟩

/-- C7 witness: the contrarian lineup built on the loaded pool. -/
theorem claim_C7_witness :
    buildContrarianLineup playerPool = some refContrarianLineup ∧
      refContrarianLineup.players.Sublist (sortOwnAsc playerPool) ∧
      ∀ p ∈ refContrarianLineup.players, (20 : Rat) ≤ p.projection := by
  have hb : buildContrarianLineup playerPool = some refContrarianLineup := by decide!
  exact ⟨hb, claim_C7_contrarian_floor playerPool refContrarianLineup hb⟩

/-- C9: the validator returns true exactly when the lineup is non-null,
has 6 entries, total cost at most the cap, at least 2 guards and at least
3 forwards; being a pure function of its argument it mutates nothing, and
the order of the internal checks is observationally fixed by this
characterization (false as soon as any check fails). -/
theorem claim_C9_validator_characterization (ol : Option Lineup) :
    validateLineup ol = true ↔
      ∃ L, ol = some L ∧ L.players.length = 6 ∧ L.salary ≤ salaryCap ∧
        2 ≤ countPosition L.players "G" ∧ 3 ≤ countPosition L.players "F" :=
  validateLineup_iff ol

/-- C9 witness: the characterization applied to a concrete valid lineup. -/
theorem claim_C9_witness : validateLineup (some refBalancedLineup) = true :=
  (claim_C9_validator_characterization (some refBalancedLineup)).mpr
    ⟨refBalancedLineup, rfl, by decide!, by decide!, by decide!, by decide!⟩

/-- C10: any strategy string outside the five named ones dispatches to the
balanced builder — no failure, no exception, and exactly the result (and
pool state) of an explicit Balanced request. -/
theorem claim_C10_unknown_strategy_fallback (strategy : String) (players : List Player)
    (h : strategy ∉ strategiesList) :
    buildLineupByStrategy strategy players = buildBalancedLineup players ∧
      buildLineupByStrategy strategy players = buildLineupByStrategy "Balanced" players ∧
      poolAfterBuild strategy players = players := by
  simp only [strategiesList, List.mem_cons, not_or] at h
  obtain ⟨h1, h2, h3, h4, h5, -⟩ := h
  refine ⟨?_, ?_, ?_⟩
  · unfold buildLineupByStrategy
    rw [if_neg h1, if_neg h2, if_neg h3, if_neg h4, if_neg h5]
  · unfold buildLineupByStrategy
    rw [if_neg h1, if_neg h2, if_neg h3, if_neg h4, if_neg h5,
      if_neg (show ¬ ("Balanced" : String) = "Ceiling" by decide), if_pos rfl]
  · unfold poolAfterBuild
    rw [if_neg h5]

/-- C10 witness: the unknown strategy string `"GPP"` builds exactly the
Balanced lineup on the loaded pool. -/
theorem claim_C10_witness :
    ("GPP" : String) ∉ strategiesList ∧
      buildLineupByStrategy "GPP" playerPool = buildLineupByStrategy "Balanced" playerPool := by
  have h : ("GPP" : String) ∉ strategiesList := by decide!
  exact ⟨h, (claim_C10_unknown_strategy_fallback "GPP" playerPool h).2.1⟩

/-- C8: on any pool where all five strategies build validating lineups,
`generate_lineups(5)` returns exactly 5 lineups tagged Ceiling, Balanced,
Contrarian, Game Stack, Value in that order, with sequence number `i + 1`
for the lineup of iteration `i`. -/
theorem claim_C8_batch_rotation (pool : List Player)
    (h : ∀ s ∈ strategiesList, validateLineup (buildLineupByStrategy s pool) = true) :
    (generateLineupsPool pool 5).map (fun L => (L.strategy, L.number)) =
      [("Ceiling", 1), ("Balanced", 2), ("Contrarian", 3), ("Game Stack", 4), ("Value", 5)] := by
  have getSome : ∀ s : String, validateLineup (buildLineupByStrategy s pool) = true →
      ∃ L, buildLineupByStrategy s pool = some L ∧ validateLineup (some L) = true := by
    intro s hs
    cases hb : buildLineupByStrategy s pool with
    | none => rw [hb] at hs; simp [validateLineup] at hs
    | some L => rw [hb] at hs; exact ⟨L, rfl, hs⟩
  obtain ⟨L0, hb0, hv0⟩ := getSome "Ceiling" (h "Ceiling" (by simp [strategiesList]))
  obtain ⟨L1, hb1, hv1⟩ := getSome "Balanced" (h "Balanced" (by simp [strategiesList]))
  obtain ⟨L2, hb2, hv2⟩ := getSome "Contrarian" (h "Contrarian" (by simp [strategiesList]))
  obtain ⟨L3, hb3, hv3⟩ := getSome "Game Stack" (h "Game Stack" (by simp [strategiesList]))
  obtain ⟨L4, hb4, hv4⟩ := getSome "Value" (h "Value" (by simp [strategiesList]))
  have key : generateLineupsPool pool 5 =
      (match buildLineupByStrategy "Ceiling" pool with
        | none => []
        | some L => if validateLineup (some L) = true
            then [{ L with strategy := "Ceiling", number := 1 }] else []) ++
      ((match buildLineupByStrategy "Balanced" pool with
        | none => []
        | some L => if validateLineup (some L) = true
            then [{ L with strategy := "Balanced", number := 2 }] else []) ++
      ((match buildLineupByStrategy "Contrarian" pool with
        | none => []
        | some L => if validateLineup (some L) = true
            then [{ L with strategy := "Contrarian", number := 3 }] else []) ++
      ((match buildLineupByStrategy "Game Stack" pool with
        | none => []
        | some L => if validateLineup (some L) = true
            then [{ L with strategy := "Game Stack", number := 4 }] else []) ++
      ((match buildLineupByStrategy "Value" pool with
        | none => []
        | some L => if validateLineup (some L) = true
            then [{ L with strategy := "Value", number := 5 }] else []) ++ [])))) := rfl
  rw [key, hb0, hb1, hb2, hb3, hb4]
  simp only []
  rw [if_pos hv0, if_pos hv1, if_pos hv2, if_pos hv3, if_pos hv4]
  simp

/-- C8 witness: the twelve-entry pool on which every strategy validates. -/
theorem claim_C8_witness :
    (∀ s ∈ strategiesList, validateLineup (buildLineupByStrategy s richPool) = true) ∧
      (generateLineupsPool richPool 5).map (fun L => (L.strategy, L.number)) =
        [("Ceiling", 1), ("Balanced", 2), ("Contrarian", 3), ("Game Stack", 4), ("Value", 5)] := by
  have h : ∀ s ∈ strategiesList, validateLineup (buildLineupByStrategy s richPool) = true := by
    decide!
  exact ⟨h, claim_C8_batch_rotation richPool h⟩
